import Mathlib

/-!
Shallow embedding of `gold_future_strategy.py` (class `GoldFutureStrategy`).

Prices are modelled as exact rationals (`ℚ`), timestamps as integers
(absolute minutes, so one calendar day spans 1440 consecutive values and
the calendar date of a timestamp is its floor division by 1440).  A pandas
time-indexed OHLC frame is modelled as a `List Bar` in index order; data
retrieval (`get_data` via yfinance) is external to the core and the
embedding starts from the already-fetched bar list, as the spec's scope
section prescribes.  The pytz conversion of the fixed literal London 08:00
session open to UTC is modelled as a fixed minute-of-day offset (480)
inside the date: the claims under study depend only on the session start
being a deterministic function of the date, never on its concrete value.
-/

namespace OPRGold

/-- One OHLC bar: a row of the pandas frame (`Open`, `High`, `Low`, `Close`)
at timestamp `time` (the frame index, UTC-normalized, modelled in minutes). -/
structure Bar where
  time : ℤ
  op : ℚ
  high : ℚ
  low : ℚ
  close : ℚ
deriving DecidableEq, Repr

/-- The dict returned by `GoldFutureStrategy.check_breakout` on success:
keys `time`, `direction` (`'long'` or `'short'`), `entry_price`,
`breakout_candle_high`, `breakout_candle_low`. -/
structure BreakoutInfo where
  time : ℤ
  direction : String
  entry_price : ℚ
  breakout_candle_high : ℚ
  breakout_candle_low : ℚ
deriving DecidableEq, Repr

/-- The `Trade` dataclass.  The Python annotation declares
`status: str = 'open'` with intended values `'open'`, `'win'`, `'loss'`,
but `run_strategy` passes `simulate_trade_outcome`'s third component,
which at runtime can be Python `None`; `status` (and likewise `exit_time`,
`exit_price`, `pnl`) is therefore modelled as an `Option`. -/
structure Trade where
  entry_time : ℤ
  entry_price : ℚ
  direction : String
  stop_loss : ℚ
  take_profit : ℚ
  exit_time : Option ℤ := none
  exit_price : Option ℚ := none
  pnl : Option ℚ := none
  status : Option String := some "open"
deriving DecidableEq, Repr

/-- The mutable state of a `GoldFutureStrategy` object:
`self.symbol`, `self.risk_reward_ratio`, `self.trades`
(`self.london_tz` is the fixed literal `'Europe/London'`). -/
structure GoldFutureStrategy where
  symbol : String
  risk_reward_ratio : ℚ
  trades : List Trade
deriving DecidableEq, Repr

/-- `GoldFutureStrategy.__init__`.  The body performs no validation of
`risk_reward_ratio`; the only call that could raise is
`pytz.timezone('Europe/London')`, whose argument is a fixed valid literal,
so the constructor has no reachable error path.  The `Except` codomain
records where a raised exception would surface. -/
def GoldFutureStrategy.init (symbol : String) (risk_reward_ratio : ℚ) :
    Except String GoldFutureStrategy :=
  Except.ok { symbol := symbol, risk_reward_ratio := risk_reward_ratio, trades := [] }

/-- `identify_london_session_start`: London 08:00 on day `date`, converted
to an absolute instant.  Modelled as minute 480 of the day (see file
header on the timezone offset). -/
def identify_london_session_start (date : ℤ) : ℤ :=
  date * 1440 + 480

/-- `calculate_london_rectangle`: filter bars with
`london_start <= t < london_start + 15` minutes; on an empty match return
the `(None, None, None)` sentinel, otherwise
`(High.max(), Low.min(), london_data)`. -/
def calculate_london_rectangle (data : List Bar) (london_start : ℤ) :
    Option (ℚ × ℚ × List Bar) :=
  let london_data := data.filter fun b =>
    decide (london_start ≤ b.time) && decide (b.time < london_start + 15)
  match london_data with
  | [] => none
  | b :: rest =>
      some ((rest.map Bar.high).foldl max b.high,
            (rest.map Bar.low).foldl min b.low,
            b :: rest)

/-- The breakout dict built from a triggering bar `b`. -/
def mkBreakout (direction : String) (b : Bar) : BreakoutInfo :=
  { time := b.time, direction := direction, entry_price := b.close,
    breakout_candle_high := b.high, breakout_candle_low := b.low }

/-- The row loop of `check_breakout`: first bar whose close is strictly
above the high level (long, checked first) or strictly below the low
level (short). -/
def scanBreakout (high_level low_level : ℚ) : List Bar → Option BreakoutInfo
  | [] => none
  | b :: rest =>
      if high_level < b.close then some (mkBreakout "long" b)
      else if b.close < low_level then some (mkBreakout "short" b)
      else scanBreakout high_level low_level rest

/-- `check_breakout`: restrict to bars with timestamp strictly greater
than `start_time`, then run the row loop (an empty restriction returns
`None`, exactly as the loop over an empty frame would). -/
def check_breakout (data : List Bar) (high_level low_level : ℚ)
    (start_time : ℤ) : Option BreakoutInfo :=
  scanBreakout high_level low_level (data.filter fun b => decide (start_time < b.time))

/-- `calculate_stop_loss_take_profit`: long → stop at the breakout
candle's low, target at entry + risk × ratio; any other direction takes
the `else` (short) branch. -/
def calculate_stop_loss_take_profit (risk_reward_ratio : ℚ)
    (breakout_info : BreakoutInfo) : ℚ × ℚ :=
  if breakout_info.direction = "long" then
    let stop_loss := breakout_info.breakout_candle_low
    let risk := breakout_info.entry_price - stop_loss
    (stop_loss, breakout_info.entry_price + risk * risk_reward_ratio)
  else
    let stop_loss := breakout_info.breakout_candle_high
    let risk := stop_loss - breakout_info.entry_price
    (stop_loss, breakout_info.entry_price - risk * risk_reward_ratio)

/-- The row loop of `simulate_trade_outcome`: stop-loss test first on
every bar, take-profit only in its `elif`; an exhausted loop yields
`(None, None, 'open')`. -/
def scanOutcome (direction : String) (stop_loss take_profit : ℚ) :
    List Bar → Option ℤ × Option ℚ × Option String
  | [] => (none, none, some "open")
  | b :: rest =>
      if direction = "long" then
        if b.low ≤ stop_loss then (some b.time, some stop_loss, some "loss")
        else if take_profit ≤ b.high then (some b.time, some take_profit, some "win")
        else scanOutcome direction stop_loss take_profit rest
      else
        if stop_loss ≤ b.high then (some b.time, some stop_loss, some "loss")
        else if b.low ≤ take_profit then (some b.time, some take_profit, some "win")
        else scanOutcome direction stop_loss take_profit rest

/-- `simulate_trade_outcome`: restrict to bars strictly after the
breakout time; note the early `if future_data.empty: return None, None, None`,
which bypasses the loop's `(None, None, 'open')` fall-through. -/
def simulate_trade_outcome (data : List Bar) (start_time : ℤ)
    (direction : String) (stop_loss take_profit : ℚ) :
    Option ℤ × Option ℚ × Option String :=
  let future_data := data.filter fun b => decide (start_time < b.time)
  if future_data.isEmpty then (none, none, none)
  else scanOutcome direction stop_loss take_profit future_data

/-- Calendar date of a bar (`data.index.date`): floor division of the
minute timestamp by 1440. -/
def barDate (b : Bar) : ℤ :=
  b.time.fdiv 1440

/-- `pd.unique`: deduplicate keeping the order of first appearance. -/
def uniqueFirst (l : List ℤ) : List ℤ :=
  l.foldl (fun acc a => if a ∈ acc then acc else acc ++ [a]) []

/-- The breakout branch of `run_strategy`'s loop body: bracket, outcome
simulation, pnl computation, and the `Trade` record appended to the
ledger. -/
def build_trade (risk_reward_ratio : ℚ) (data : List Bar)
    (breakout : BreakoutInfo) : Trade :=
  let bracket := calculate_stop_loss_take_profit risk_reward_ratio breakout
  let stop_loss := bracket.1
  let take_profit := bracket.2
  let outcome := simulate_trade_outcome data breakout.time
    breakout.direction stop_loss take_profit
  let status := outcome.2.2
  let pnl : Option ℚ :=
    if status = some "win" then
      some (if breakout.direction = "long" then
              take_profit - breakout.entry_price
            else breakout.entry_price - take_profit)
    else if status = some "loss" then
      some (if breakout.direction = "long" then
              stop_loss - breakout.entry_price
            else breakout.entry_price - stop_loss)
    else none
  { entry_time := breakout.time,
    entry_price := breakout.entry_price,
    direction := breakout.direction,
    stop_loss := stop_loss,
    take_profit := take_profit,
    exit_time := outcome.1,
    exit_price := outcome.2.1,
    pnl := pnl,
    status := status }

/-- The body of `run_strategy`'s per-date loop: rectangle, breakout scan
from the last rectangle bar, then the breakout branch; `None` when the
day has no rectangle or no breakout. -/
def process_day (risk_reward_ratio : ℚ) (data : List Bar) (date : ℤ) :
    Option Trade :=
  match calculate_london_rectangle data (identify_london_session_start date) with
  | none => none
  | some (high_15min, low_15min, london_data) =>
      match london_data.getLast? with
      | none => none
      | some lastBar =>
          (check_breakout data high_15min low_15min lastBar.time).map
            (build_trade risk_reward_ratio data)

/-- `run_strategy` after the (external) data fetch and UTC normalization:
iterate the distinct calendar dates of the index in order of first
appearance and append each produced `Trade` to `self.trades`. -/
def run_strategy (s : GoldFutureStrategy) (data : List Bar) : GoldFutureStrategy :=
  { s with trades := s.trades ++
      (uniqueFirst (data.map barDate)).filterMap (process_day s.risk_reward_ratio data) }

/-- Statement of the breakout postcondition on a returned event `bk`:
the post-bound bar list splits as a trigger-free prefix, then the
triggering bar, whose fields `bk` carries; the trigger is the strict
long condition, or the strict short condition with the long one false. -/
def BreakoutSpec (data : List Bar) (high_level low_level : ℚ)
    (start_time : ℤ) (bk : BreakoutInfo) : Prop :=
  ∃ l₁ b l₂,
    data.filter (fun x => decide (start_time < x.time)) = l₁ ++ b :: l₂ ∧
    (∀ x ∈ l₁, ¬ high_level < x.close ∧ ¬ x.close < low_level) ∧
    start_time < b.time ∧
    bk.time = b.time ∧ bk.entry_price = b.close ∧
    bk.breakout_candle_high = b.high ∧ bk.breakout_candle_low = b.low ∧
    ((high_level < b.close ∧ bk.direction = "long") ∨
     (¬ high_level < b.close ∧ b.close < low_level ∧ bk.direction = "short"))

/-- Concrete one-bar series for the C1 witness. -/
def dataC1 : List Bar := [⟨10, 1, 5, 3, 4⟩]

/-- Concrete one-bar series for the C2 witness: the single bar touches
both the stop (low 4 ≤ 5) and the target (high 12 ≥ 10). -/
def dataC2 : List Bar := [⟨7, 6, 12, 4, 8⟩]

/-- Concrete breakout event for the C3 witness. -/
def biC3 : BreakoutInfo := ⟨5, "long", 100, 102, 98⟩

/-- Two-bar day for C4: the rectangle bar at minute 480 (levels 10/9) and
a breakout bar at minute 500 (close 11 > 10) that is also the last bar of
the series, so the outcome scan has no bars to visit. -/
def dataC4 : List Bar := [⟨480, 9, 10, 9, 9⟩, ⟨500, 11, 12, 10, 11⟩]

/-- Three bars over two calendar days for C5: day 0's rectangle bar
(levels 100/90), day 1's rectangle bar (levels 200/190, and the bar that
breaks day 0's high), and a later day-1 bar breaking day 1's high. -/
def dataC5 : List Bar :=
  [⟨480, 0, 100, 90, 95⟩, ⟨1920, 0, 200, 190, 195⟩, ⟨1940, 0, 260, 240, 250⟩]

/-- Fresh strategy object for C5 (ratio 2, empty ledger). -/
def stratC5 : GoldFutureStrategy := ⟨"GC=F", 2, []⟩

/-- The strategy state produced by constructing with ratio −1. -/
def stratC6 : GoldFutureStrategy := ⟨"GC=F", -1, []⟩

/-- One day for the C7 witness: rectangle bar (levels 10/9), breakout bar
(close 11, candle low 10, so stop 10 and, at ratio 2, target 13), then a
bar whose high 14 reaches the target. -/
def dataC7 : List Bar :=
  [⟨480, 0, 10, 9, 9⟩, ⟨500, 0, 12, 10, 11⟩, ⟨510, 0, 14, 11, 12⟩]

/-- The trade produced by `process_day 2 dataC7 0`. -/
def trC7 : Trade :=
  { entry_time := 500, entry_price := 11, direction := "long",
    stop_loss := 10, take_profit := 13,
    exit_time := some 510, exit_price := some 13,
    pnl := some 2, status := some "win" }

/-- Degenerate day for the C7 counterexample: the breakout bar (close 21
above the 20/19 rectangle) is the last bar of the series. -/
def dataC7x : List Bar := [⟨480, 0, 20, 19, 19⟩, ⟨500, 0, 22, 21, 21⟩]

/-- Statement of the rectangle postcondition on a success
`(hi, lo, matched)`: the matched bars are exactly those in the
half-open window, `hi` is an attained upper bound of the highs, `lo` an
attained lower bound of the lows, and well-formed bars force `lo ≤ hi`. -/
def RectangleSpec (data : List Bar) (start : ℤ) (hi lo : ℚ)
    (matched : List Bar) : Prop :=
  matched = data.filter
    (fun b => decide (start ≤ b.time) && decide (b.time < start + 15)) ∧
  matched ≠ [] ∧
  (∃ b ∈ matched, b.high = hi) ∧ (∀ b ∈ matched, b.high ≤ hi) ∧
  (∃ b ∈ matched, b.low = lo) ∧ (∀ b ∈ matched, lo ≤ b.low) ∧
  ((∀ b ∈ matched, b.low ≤ b.high) → lo ≤ hi)

/-- Two in-window bars for the C8 witness. -/
def dataC8 : List Bar := [⟨482, 1, 7, 2, 5⟩, ⟨490, 1, 6, 3, 4⟩]

/-- One-bar series for the C9 witness. -/
def dataC9 : List Bar := [⟨480, 0, 10, 9, 9⟩]

theorem scanBreakout_none_forall (hl ll : ℚ) :
    ∀ l : List Bar, scanBreakout hl ll l = none →
      ∀ b ∈ l, ¬ hl < b.close ∧ ¬ b.close < ll := by
  intro l
  induction l with
  | nil => intro _ b hb; exact absurd hb (List.not_mem_nil b)
  | cons a rest ih =>
    intro h b hb
    rw [scanBreakout] at h
    by_cases h1 : hl < a.close
    · rw [if_pos h1] at h; cases h
    · rw [if_neg h1] at h
      by_cases h2 : a.close < ll
      · rw [if_pos h2] at h; cases h
      · rw [if_neg h2] at h
        rcases List.mem_cons.mp hb with rfl | hb2
        · exact ⟨h1, h2⟩
        · exact ih h b hb2

theorem scanBreakout_some_decomp (hl ll : ℚ) :
    ∀ (l : List Bar) (bk : BreakoutInfo), scanBreakout hl ll l = some bk →
      ∃ l₁ b l₂, l = l₁ ++ b :: l₂ ∧
        (∀ x ∈ l₁, ¬ hl < x.close ∧ ¬ x.close < ll) ∧
        bk.time = b.time ∧ bk.entry_price = b.close ∧
        bk.breakout_candle_high = b.high ∧ bk.breakout_candle_low = b.low ∧
        ((hl < b.close ∧ bk.direction = "long") ∨
         (¬ hl < b.close ∧ b.close < ll ∧ bk.direction = "short")) := by
  intro l
  induction l with
  | nil => intro bk h; rw [scanBreakout] at h; cases h
  | cons a rest ih =>
    intro bk h
    rw [scanBreakout] at h
    by_cases h1 : hl < a.close
    · rw [if_pos h1] at h
      injection h with h
      subst h
      exact ⟨[], a, rest, rfl, by simp, rfl, rfl, rfl, rfl, Or.inl ⟨h1, rfl⟩⟩
    · rw [if_neg h1] at h
      by_cases h2 : a.close < ll
      · rw [if_pos h2] at h
        injection h with h
        subst h
        exact ⟨[], a, rest, rfl, by simp, rfl, rfl, rfl, rfl, Or.inr ⟨h1, h2, rfl⟩⟩
      · rw [if_neg h2] at h
        obtain ⟨l₁, b, l₂, heq, hpre, ht, hep, hbh, hbl, hdir⟩ := ih bk h
        refine ⟨a :: l₁, b, l₂, by rw [heq, List.cons_append], ?_, ht, hep, hbh, hbl, hdir⟩
        intro x hx
        rcases List.mem_cons.mp hx with rfl | hx2
        · exact ⟨h1, h2⟩
        · exact hpre x hx2

/-- C1: `check_breakout` considers only bars strictly after the bound, in
series order; it returns a long event at the first bar with close
strictly above the high level, a short event at the first bar with close
strictly below the low level (short tested only when long did not fire on
that bar), carrying that bar's close/high/low; equality with a level
never triggers, and when no remaining bar triggers, no breakout is
reported. -/
theorem c1_breakout_scan (data : List Bar) (high_level low_level : ℚ)
    (start_time : ℤ) :
    (check_breakout data high_level low_level start_time = none →
      ∀ b ∈ data.filter (fun x => decide (start_time < x.time)),
        ¬ high_level < b.close ∧ ¬ b.close < low_level) ∧
    (∀ bk, check_breakout data high_level low_level start_time = some bk →
      BreakoutSpec data high_level low_level start_time bk) := by
  constructor
  · intro h
    exact scanBreakout_none_forall high_level low_level _ h
  · intro bk h
    obtain ⟨l₁, b, l₂, heq, hpre, ht, hep, hbh, hbl, hdir⟩ :=
      scanBreakout_some_decomp high_level low_level _ bk h
    refine ⟨l₁, b, l₂, heq, hpre, ?_, ht, hep, hbh, hbl, hdir⟩
    have hb : b ∈ data.filter (fun x => decide (start_time < x.time)) := by
      rw [heq]
      exact List.mem_append_right _ (List.mem_cons_self b l₂)
    exact of_decide_eq_true (List.mem_filter.mp hb).2

/-- C1 witness: on the concrete series the scan returns a long event and
the postcondition holds at it. -/
theorem c1_breakout_scan_witness :
    BreakoutSpec dataC1 3 2 0 (mkBreakout "long" ⟨10, 1, 5, 3, 4⟩) :=
  (c1_breakout_scan dataC1 3 2 0).2 (mkBreakout "long" ⟨10, 1, 5, 3, 4⟩) (by decide)

theorem scanOutcome_long_loss (sl tp : ℚ) :
    ∀ (l₁ : List Bar) (b : Bar) (l₂ : List Bar),
      (∀ x ∈ l₁, ¬ x.low ≤ sl ∧ ¬ tp ≤ x.high) →
      b.low ≤ sl →
      scanOutcome "long" sl tp (l₁ ++ b :: l₂) =
        (some b.time, some sl, some "loss") := by
  intro l₁
  induction l₁ with
  | nil =>
    intro b l₂ _ hb
    simp [scanOutcome, hb]
  | cons a rest ih =>
    intro b l₂ hpre hb
    have ha := hpre a (List.mem_cons_self a rest)
    rw [List.cons_append, scanOutcome]
    simp only [if_pos rfl, if_neg ha.1, if_neg ha.2]
    exact ih b l₂ (fun x hx => hpre x (List.mem_cons_of_mem a hx)) hb

theorem scanOutcome_short_loss (sl tp : ℚ) :
    ∀ (l₁ : List Bar) (b : Bar) (l₂ : List Bar),
      (∀ x ∈ l₁, ¬ sl ≤ x.high ∧ ¬ x.low ≤ tp) →
      sl ≤ b.high →
      scanOutcome "short" sl tp (l₁ ++ b :: l₂) =
        (some b.time, some sl, some "loss") := by
  intro l₁
  induction l₁ with
  | nil =>
    intro b l₂ _ hb
    simp [scanOutcome, hb]
  | cons a rest ih =>
    intro b l₂ hpre hb
    have ha := hpre a (List.mem_cons_self a rest)
    rw [List.cons_append, scanOutcome]
    simp only [if_neg (by decide : ¬ ("short" : String) = "long"),
      if_neg ha.1, if_neg ha.2]
    exact ih b l₂ (fun x hx => hpre x (List.mem_cons_of_mem a hx)) hb

/-- C2: in `simulate_trade_outcome` the stop-loss test precedes the
take-profit test on every scanned bar, for both directions: whenever the
first bar past a trigger-free prefix touches the stop, the outcome is a
loss at the stop price, regardless of whether the same bar also touches
the target. -/
theorem c2_stop_priority :
    (∀ (data : List Bar) (t : ℤ) (sl tp : ℚ) (l₁ : List Bar) (b : Bar)
        (l₂ : List Bar),
      data.filter (fun x => decide (t < x.time)) = l₁ ++ b :: l₂ →
      (∀ x ∈ l₁, ¬ x.low ≤ sl ∧ ¬ tp ≤ x.high) →
      b.low ≤ sl →
      simulate_trade_outcome data t "long" sl tp =
        (some b.time, some sl, some "loss")) ∧
    (∀ (data : List Bar) (t : ℤ) (sl tp : ℚ) (l₁ : List Bar) (b : Bar)
        (l₂ : List Bar),
      data.filter (fun x => decide (t < x.time)) = l₁ ++ b :: l₂ →
      (∀ x ∈ l₁, ¬ sl ≤ x.high ∧ ¬ x.low ≤ tp) →
      sl ≤ b.high →
      simulate_trade_outcome data t "short" sl tp =
        (some b.time, some sl, some "loss")) := by
  constructor
  · intro data t sl tp l₁ b l₂ heq hpre hb
    rw [simulate_trade_outcome]
    simp only [heq]
    have hne : (l₁ ++ b :: l₂).isEmpty = false := by
      cases l₁ <;> simp [List.isEmpty]
    simp only [hne, Bool.false_eq_true, if_false]
    exact scanOutcome_long_loss sl tp l₁ b l₂ hpre hb
  · intro data t sl tp l₁ b l₂ heq hpre hb
    rw [simulate_trade_outcome]
    simp only [heq]
    have hne : (l₁ ++ b :: l₂).isEmpty = false := by
      cases l₁ <;> simp [List.isEmpty]
    simp only [hne, Bool.false_eq_true, if_false]
    exact scanOutcome_short_loss sl tp l₁ b l₂ hpre hb

/-- C2 witness: a single bar touching both the stop (low 4 ≤ 5) and the
target (high 12 ≥ 10) of a long position resolves to a loss at the stop. -/
theorem c2_stop_priority_witness :
    simulate_trade_outcome dataC2 0 "long" 5 10 = (some 7, some 5, some "loss") :=
  c2_stop_priority.1 dataC2 0 5 10 [] ⟨7, 6, 12, 4, 8⟩ [] (by decide)
    (by simp) (by norm_num)

/-- C3: for any positive reward multiple, the bracket is
(breakout-candle low, entry + risk × R) for long and
(breakout-candle high, entry − risk × R) for short; the computation is
total. -/
theorem c3_bracket (rr : ℚ) (bi : BreakoutInfo) (hrr : 0 < rr) :
    (bi.direction = "long" →
      calculate_stop_loss_take_profit rr bi =
        (bi.breakout_candle_low,
         bi.entry_price + (bi.entry_price - bi.breakout_candle_low) * rr)) ∧
    (bi.direction = "short" →
      calculate_stop_loss_take_profit rr bi =
        (bi.breakout_candle_high,
         bi.entry_price - (bi.breakout_candle_high - bi.entry_price) * rr)) := by
  constructor
  · intro h
    simp [calculate_stop_loss_take_profit, h]
  · intro h
    simp [calculate_stop_loss_take_profit, h]

/-- C3 witness: concrete long breakout with R = 3. -/
theorem c3_bracket_witness :
    0 < (3 : ℚ) ∧
      calculate_stop_loss_take_profit 3 biC3 =
        (biC3.breakout_candle_low,
         biC3.entry_price + (biC3.entry_price - biC3.breakout_candle_low) * 3) :=
  ⟨by norm_num, (c3_bracket 3 biC3 (by norm_num)).1 rfl⟩

/-- C4: when no bar lies strictly after the breakout, the early-return in
`simulate_trade_outcome` yields `(None, None, None)` rather than the
specified `(None, None, 'open')`, and the recorded trade's status is
unset (not `'open'`) even though both exit fields are unset —
contradicting the `Trade` declaration's own `status: str` annotation with
values `'open'`/`'win'`/`'loss'`. -/
theorem c4_empty_future_eval :
    simulate_trade_outcome dataC4 500 "long" 10 13 = (none, none, none) ∧
    (process_day 2 dataC4 0).map Trade.status = some none ∧
    (process_day 2 dataC4 0).map Trade.exit_time = some none ∧
    (process_day 2 dataC4 0).map Trade.exit_price = some none ∧
    ¬ (process_day 2 dataC4 0).map Trade.status = some (some "open") := by
  decide

/-- C5 counterexample: on `dataC5` the run records two trades whose entry
times fall on the same calendar date (day 1): day 0's scan, unbounded to
the right, first triggers on a day-1 bar, and day 1's scan triggers on a
later day-1 bar. -/
theorem c5_same_date_cex :
    ((run_strategy stratC5 dataC5).trades.map
      (fun tr => tr.entry_time.fdiv 1440)) = [1, 1] ∧
    ¬ ((run_strategy stratC5 dataC5).trades.map
      (fun tr => tr.entry_time.fdiv 1440)).Nodup := by
  decide

theorem uniqueFirst_nodup (l : List ℤ) : (uniqueFirst l).Nodup := by
  have key : ∀ (l : List ℤ) (acc : List ℤ), acc.Nodup →
      (l.foldl (fun acc a => if a ∈ acc then acc else acc ++ [a]) acc).Nodup := by
    intro l
    induction l with
    | nil => intro acc h; exact h
    | cons a rest ih =>
      intro acc h
      rw [List.foldl_cons]
      by_cases ha : a ∈ acc
      · rw [if_pos ha]; exact ih acc h
      · rw [if_neg ha]
        refine ih _ (List.nodup_append.mpr ⟨h, List.nodup_singleton a, ?_⟩)
        intro x hx hxa
        rcases List.mem_singleton.mp hxa with rfl
        exact ha hx
  exact key l [] List.nodup_nil

/-- C5 amended: each distinct calendar date of the series is processed
once (the date list is duplicate-free) and contributes at most one ledger
entry, so a run grows the ledger by at most one trade per distinct date;
however (see the counterexample) the *entry times* of trades from
different date iterations may fall on the same calendar date, because
`check_breakout` scans all bars after the rectangle, not only that
day's. -/
theorem c5_at_most_one_per_date (s : GoldFutureStrategy) (data : List Bar) :
    (uniqueFirst (data.map barDate)).Nodup ∧
    (run_strategy s data).trades.length ≤
      s.trades.length + (uniqueFirst (data.map barDate)).length := by
  refine ⟨uniqueFirst_nodup _, ?_⟩
  simp only [run_strategy, List.length_append]
  exact Nat.add_le_add_left (List.length_filterMap_le _ _) _

/-- C6 counterexample: constructing with the non-positive reward multiple
−1 does not raise; it returns the strategy object unchanged. -/
theorem c6_no_error_cex :
    GoldFutureStrategy.init "GC=F" (-1) = Except.ok stratC6 ∧
    (GoldFutureStrategy.init "GC=F" (-1)).isOk = true :=
  ⟨rfl, rfl⟩

/-- C6 amended: the constructor performs no validation at all — for every
symbol and every reward multiple (positive or not) it succeeds, and the
time-zone identifier is the fixed valid literal, so no configuration
error path exists. -/
theorem c6_construction_total (symbol : String) (rr : ℚ) :
    GoldFutureStrategy.init symbol rr =
      Except.ok { symbol := symbol, risk_reward_ratio := rr, trades := [] } :=
  rfl

/-- C7 amended: for every recorded trade, a `'win'` status carries
pnl = risk × R and a `'loss'` status carries pnl = −risk exactly (risk
being entry − stop for long, stop − entry for short, in exact rational
arithmetic); pnl is unset exactly when the status is neither `'win'` nor
`'loss'` — which is status `'open'` when at least one bar follows the
breakout, but an unset status when none does (see the counterexample). -/
theorem c7_pnl_arithmetic (rr : ℚ) (data : List Bar) (date : ℤ) (tr : Trade)
    (h : process_day rr data date = some tr) :
    (tr.status = some "win" →
      tr.pnl = some ((if tr.direction = "long" then tr.entry_price - tr.stop_loss
                      else tr.stop_loss - tr.entry_price) * rr)) ∧
    (tr.status = some "loss" →
      tr.pnl = some (-(if tr.direction = "long" then tr.entry_price - tr.stop_loss
                       else tr.stop_loss - tr.entry_price))) ∧
    (tr.pnl = none ↔ (¬ tr.status = some "win" ∧ ¬ tr.status = some "loss")) := by
  obtain ⟨bk, hbk⟩ : ∃ bk, tr = build_trade rr data bk := by
    unfold process_day at h
    split at h
    · cases h
    · split at h
      · cases h
      · rcases Option.map_eq_some'.mp h with ⟨bk, _, hbk⟩
        exact ⟨bk, hbk.symm⟩
  subst hbk
  simp only [build_trade]
  generalize simulate_trade_outcome data bk.time bk.direction
    (calculate_stop_loss_take_profit rr bk).1
    (calculate_stop_loss_take_profit rr bk).2 = oc
  obtain ⟨et, ep, st⟩ := oc
  dsimp only
  refine ⟨?_, ?_, ?_⟩
  · intro h1
    subst h1
    rw [if_pos rfl, Option.some_inj]
    by_cases hd : bk.direction = "long"
    · simp only [calculate_stop_loss_take_profit, hd, if_true, ite_true, eq_self_iff_true]
      ring
    · simp only [calculate_stop_loss_take_profit, hd, if_false, ite_false]
      ring
  · intro h1
    subst h1
    rw [if_neg (by decide : ¬ ((some "loss" : Option String) = some "win")),
      if_pos rfl, Option.some_inj]
    by_cases hd : bk.direction = "long"
    · simp only [calculate_stop_loss_take_profit, hd, if_true, ite_true, eq_self_iff_true]
      ring
    · simp only [calculate_stop_loss_take_profit, hd, if_false, ite_false]
      ring
  · constructor
    · intro h1
      by_cases hw : st = some "win"
      · rw [if_pos hw] at h1; cases h1
      · by_cases hl2 : st = some "loss"
        · rw [if_neg hw, if_pos hl2] at h1; cases h1
        · exact ⟨hw, hl2⟩
    · rintro ⟨hw, hl2⟩
      rw [if_neg hw, if_neg hl2]

/-- C7 witness: the concrete winning long trade on `dataC7` (risk 1,
ratio 2) has pnl 2 = risk × R. -/
theorem c7_pnl_arithmetic_witness :
    trC7.pnl = some ((if trC7.direction = "long"
      then trC7.entry_price - trC7.stop_loss
      else trC7.stop_loss - trC7.entry_price) * 2) :=
  (c7_pnl_arithmetic 2 dataC7 0 trC7 (by
    norm_num [process_day, identify_london_session_start,
      calculate_london_rectangle, check_breakout, scanBreakout, mkBreakout,
      build_trade, calculate_stop_loss_take_profit, simulate_trade_outcome,
      scanOutcome, trC7, dataC7, List.filter, Trade.mk.injEq])).1 (by rfl)

/-- C7 counterexample: on `dataC7x` the recorded trade has unset pnl but
its status is not `'open'` (it is unset), so "pnl unset exactly when
status is 'open'" fails as stated. -/
theorem c7_pnl_unset_cex :
    (process_day 2 dataC7x 0).map Trade.pnl = some none ∧
    ¬ (process_day 2 dataC7x 0).map Trade.status = some (some "open") := by
  decide

theorem foldl_max_bounds (l : List ℚ) (a : ℚ) :
    a ≤ l.foldl max a ∧ ∀ x ∈ l, x ≤ l.foldl max a := by
  induction l generalizing a with
  | nil => exact ⟨le_refl a, by simp⟩
  | cons c cs ih =>
    rw [List.foldl_cons]
    obtain ⟨h1, h2⟩ := ih (max a c)
    refine ⟨le_trans (le_max_left a c) h1, ?_⟩
    intro x hx
    rcases List.mem_cons.mp hx with rfl | hx2
    · exact le_trans (le_max_right a x) h1
    · exact h2 x hx2

theorem foldl_max_attained (l : List ℚ) (a : ℚ) :
    l.foldl max a = a ∨ l.foldl max a ∈ l := by
  induction l generalizing a with
  | nil => exact Or.inl rfl
  | cons c cs ih =>
    rw [List.foldl_cons]
    rcases ih (max a c) with h | h
    · rw [h]
      rcases max_choice a c with h2 | h2
      · exact Or.inl h2
      · rw [h2]
        exact Or.inr (List.mem_cons_self c cs)
    · exact Or.inr (List.mem_cons_of_mem c h)

theorem foldl_min_bounds (l : List ℚ) (a : ℚ) :
    l.foldl min a ≤ a ∧ ∀ x ∈ l, l.foldl min a ≤ x := by
  induction l generalizing a with
  | nil => exact ⟨le_refl a, by simp⟩
  | cons c cs ih =>
    rw [List.foldl_cons]
    obtain ⟨h1, h2⟩ := ih (min a c)
    refine ⟨le_trans h1 (min_le_left a c), ?_⟩
    intro x hx
    rcases List.mem_cons.mp hx with rfl | hx2
    · exact le_trans h1 (min_le_right a x)
    · exact h2 x hx2

theorem foldl_min_attained (l : List ℚ) (a : ℚ) :
    l.foldl min a = a ∨ l.foldl min a ∈ l := by
  induction l generalizing a with
  | nil => exact Or.inl rfl
  | cons c cs ih =>
    rw [List.foldl_cons]
    rcases ih (min a c) with h | h
    · rw [h]
      rcases min_choice a c with h2 | h2
      · exact Or.inl h2
      · rw [h2]
        exact Or.inr (List.mem_cons_self c cs)
    · exact Or.inr (List.mem_cons_of_mem c h)

/-- C8: the rectangle extractor matches exactly the bars in the half-open
window [start, start+15), returns the no-range sentinel exactly when no
bar matches, and otherwise returns the attained maximum of the highs and
the attained minimum of the lows, which satisfy low ≤ high whenever every
matched bar is well-formed. -/
theorem c8_rectangle (data : List Bar) (start : ℤ) :
    (calculate_london_rectangle data start = none ↔
      data.filter
        (fun b => decide (start ≤ b.time) && decide (b.time < start + 15)) = []) ∧
    (∀ hi lo matched,
      calculate_london_rectangle data start = some (hi, lo, matched) →
      RectangleSpec data start hi lo matched) := by
  have hdef : calculate_london_rectangle data start =
      match data.filter
        (fun b => decide (start ≤ b.time) && decide (b.time < start + 15)) with
      | [] => none
      | b :: rest =>
          some ((rest.map Bar.high).foldl max b.high,
                (rest.map Bar.low).foldl min b.low, b :: rest) := rfl
  cases hfil : data.filter
      (fun b => decide (start ≤ b.time) && decide (b.time < start + 15)) with
  | nil =>
    rw [hfil] at hdef
    constructor
    · rw [hdef]
      simp
    · intro hi lo matched h
      rw [hdef] at h
      cases h
  | cons b rest =>
    rw [hfil] at hdef
    constructor
    · rw [hdef]
      simp
    · intro hi lo matched h
      rw [hdef] at h
      injection h with h
      injection h with h1 h23
      injection h23 with h2 h3
      subst h1
      subst h2
      subst h3
      obtain ⟨hmaxb, hmaxall⟩ := foldl_max_bounds (rest.map Bar.high) b.high
      obtain ⟨hminb, hminall⟩ := foldl_min_bounds (rest.map Bar.low) b.low
      have hhiub : ∀ x ∈ b :: rest,
          x.high ≤ (rest.map Bar.high).foldl max b.high := by
        intro x hx
        rcases List.mem_cons.mp hx with rfl | hx2
        · exact hmaxb
        · exact hmaxall x.high (List.mem_map_of_mem Bar.high hx2)
      have hlolb : ∀ x ∈ b :: rest,
          (rest.map Bar.low).foldl min b.low ≤ x.low := by
        intro x hx
        rcases List.mem_cons.mp hx with rfl | hx2
        · exact hminb
        · exact hminall x.low (List.mem_map_of_mem Bar.low hx2)
      have hhiex : ∃ x ∈ b :: rest,
          x.high = (rest.map Bar.high).foldl max b.high := by
        rcases foldl_max_attained (rest.map Bar.high) b.high with h | h
        · exact ⟨b, List.mem_cons_self b rest, h.symm⟩
        · rcases List.mem_map.mp h with ⟨x, hx2, hxe⟩
          exact ⟨x, List.mem_cons_of_mem b hx2, hxe⟩
      have hloex : ∃ x ∈ b :: rest,
          x.low = (rest.map Bar.low).foldl min b.low := by
        rcases foldl_min_attained (rest.map Bar.low) b.low with h | h
        · exact ⟨b, List.mem_cons_self b rest, h.symm⟩
        · rcases List.mem_map.mp h with ⟨x, hx2, hxe⟩
          exact ⟨x, List.mem_cons_of_mem b hx2, hxe⟩
      refine ⟨hfil.symm, by simp, hhiex, hhiub, hloex, hlolb, ?_⟩
      intro hwf
      obtain ⟨w, hw, hwe⟩ := hhiex
      calc (rest.map Bar.low).foldl min b.low ≤ w.low := hlolb w hw
        _ ≤ w.high := hwf w hw
        _ = _ := hwe

/-- C8 witness: on two in-window bars the extractor returns high 7
(the maximum) and low 2 (the minimum) and the postcondition holds. -/
theorem c8_rectangle_witness : RectangleSpec dataC8 480 7 2 dataC8 :=
  (c8_rectangle dataC8 480).2 7 2 dataC8 (by decide)

/-- C9: the pipeline is a pure function of the configuration, the prior
ledger, and the bar series: equal reward ratios, equal prior ledgers and
an identical series give identical trade records (in particular the
symbol string plays no role in the records produced). -/
theorem c9_deterministic (s₁ s₂ : GoldFutureStrategy) (data₁ data₂ : List Bar)
    (hrr : s₁.risk_reward_ratio = s₂.risk_reward_ratio)
    (htr : s₁.trades = s₂.trades) (hdata : data₁ = data₂) :
    (run_strategy s₁ data₁).trades = (run_strategy s₂ data₂).trades := by
  subst hdata
  simp only [run_strategy, hrr, htr]

/-- C9 witness: two fresh strategy objects over the same one-bar series
(differing only in symbol) produce identical ledgers. -/
theorem c9_deterministic_witness :
    (run_strategy ⟨"GC=F", 2, []⟩ dataC9).trades =
      (run_strategy ⟨"GOLD", 2, []⟩ dataC9).trades :=
  c9_deterministic ⟨"GC=F", 2, []⟩ ⟨"GOLD", 2, []⟩ dataC9 dataC9 rfl rfl rfl

/-- C10: the ledger is append-only — a run leaves the prior entries as a
prefix and only appends; two successive runs accumulate both runs'
trades after the original ledger; the configuration fields are
untouched. -/
theorem c10_append_only (s : GoldFutureStrategy) (data₁ data₂ : List Bar) :
    (∃ new, (run_strategy s data₁).trades = s.trades ++ new) ∧
    (∃ n₁ n₂, (run_strategy (run_strategy s data₁) data₂).trades =
      s.trades ++ n₁ ++ n₂) ∧
    (run_strategy s data₁).symbol = s.symbol ∧
    (run_strategy s data₁).risk_reward_ratio = s.risk_reward_ratio := by
  exact ⟨⟨_, rfl⟩,
    ⟨(uniqueFirst (data₁.map barDate)).filterMap (process_day s.risk_reward_ratio data₁),
     (uniqueFirst (data₂.map barDate)).filterMap (process_day s.risk_reward_ratio data₂),
     rfl⟩, rfl, rfl⟩

end OPRGold
